import Mathlib

/-!
Shallow embedding of `src/job_scraper.py` (repository DailyJobs).

The Python script pulls all users from Firestore, scrapes a static mapping
of companies via `scrape_greenhouse_jobs`, then, per user and per followed
company, checks the `jobs` collection for each scraped posting's `job_id`,
inserts unseen postings, collects them into `user_new_jobs`, and emails the
user when that list is non-empty.

External effects are made explicit:
  * the Firestore `jobs` collection is a list of `Job` records;
  * fallibility of the store is an oracle pair (`cf` for the existence
    query raising, `insf` for the insert raising); a raised exception is
    uncaught in `scrape_jobs`, so it aborts the rest of the cycle while
    keeping effects already performed;
  * the SMTP failure oracle `nf` is consumed inside
    `send_email_notification`, whose try/except converts it into a logged
    success flag;
  * the per-company scrape trace, each user's `user_new_jobs` list and
    each email handed to `send_email_notification` are recorded in the
    cycle result so that theorems can speak about them.
-/

/-- A job posting dict as produced by `scrape_greenhouse_jobs` and stored in
the Firestore `jobs` collection. -/
structure Job where
  job_id : String
  company : String
  title : String
  location : String
  url : String
deriving DecidableEq, Repr

/-- A user record as returned by `get_user_preferences`. -/
structure User where
  id : String
  name : String
  email : String
  companies : List String
deriving DecidableEq, Repr

/-- The outcome of one `send_email_notification` call: recipient, display
name, the jobs list rendered into the message, and whether the SMTP send
succeeded (the exception is caught inside `send_email_notification`). -/
structure Email where
  recipient : String
  name : String
  jobs : List Job
  success : Bool
deriving DecidableEq, Repr

/-- The existence check `db.collection('jobs').where('job_id', '==', i).get()`
followed by `if not job_ref`: true iff some stored record carries `i`. -/
def existsId (store : List Job) (i : String) : Bool :=
  store.any (fun r => r.job_id == i)

/-- Number of stored records carrying identifier `i`. -/
def countId (store : List Job) (i : String) : Nat :=
  (store.filter (fun r => r.job_id == i)).length

/-- State threaded through the inner loops of `scrape_jobs`: the evolving
`jobs` collection, the current user's `user_new_jobs` accumulator, and
whether processing is still alive (`ok = false` once a store call raised). -/
structure StepState where
  store : List Job
  newJobs : List Job
  ok : Bool
deriving DecidableEq, Repr

/-- The loop `for job in company_jobs:` of `scrape_jobs`: query the store for
`job['job_id']` (oracle `cf` true means the query raises, aborting), insert
when absent (oracle `insf` true means `add` raises, aborting) and append the
job to `user_new_jobs`. -/
def processJobs (cf insf : String → Bool) : List Job → List Job → List Job → StepState
  | [], store, acc => ⟨store, acc, true⟩
  | j :: rest, store, acc =>
    if cf j.job_id then ⟨store, acc, false⟩
    else if existsId store j.job_id then processJobs cf insf rest store acc
    else if insf j.job_id then ⟨store, acc, false⟩
    else processJobs cf insf rest (store ++ [j]) (acc ++ [j])

/-- The loop `for company in user['companies']:` of `scrape_jobs`, with the
membership test `if company in all_jobs:` and lookup `all_jobs[company]`. -/
def processCompanies (cf insf : String → Bool) (allJobs : List (String × List Job)) :
    List String → List Job → List Job → StepState
  | [], store, acc => ⟨store, acc, true⟩
  | c :: cs, store, acc =>
    match allJobs.lookup c with
    | none => processCompanies cf insf allJobs cs store acc
    | some jobs =>
      let s := processJobs cf insf jobs store acc
      if s.ok then processCompanies cf insf allJobs cs s.store s.newJobs
      else s

/-- The body of `send_email_notification`: the SMTP interaction sits in a
try/except, so a send failure (oracle `nf` true for this recipient) is
caught and logged, never propagated; only the success flag differs. -/
def send_email_notification (nf : String → Bool) (recipient name : String)
    (jobs : List Job) : Email :=
  ⟨recipient, name, jobs, !nf recipient⟩

/-- Cumulative outcome of the `for user in users:` loop. -/
structure UsersState where
  store : List Job
  userNewJobs : List (User × List Job)
  emails : List Email
  ok : Bool
deriving DecidableEq, Repr

/-- The loop `for user in users:` of `scrape_jobs`: each user starts with an
empty `user_new_jobs`, walks their followed companies, and is emailed when
the list is non-empty. A store exception inside a user's pass escapes
`scrape_jobs`, so the remaining users are not processed and the failing
user's partial list is never recorded or emailed. -/
def processUsers (cf insf nf : String → Bool) (allJobs : List (String × List Job)) :
    List User → List Job → UsersState
  | [], store => ⟨store, [], [], true⟩
  | u :: us, store =>
    let s := processCompanies cf insf allJobs u.companies store []
    if s.ok then
      let rest := processUsers cf insf nf allJobs us s.store
      ⟨rest.store, (u, s.newJobs) :: rest.userNewJobs,
        (if s.newJobs.isEmpty then [] else [send_email_notification nf u.email u.name s.newJobs])
          ++ rest.emails,
        rest.ok⟩
    else ⟨s.store, [], [], false⟩

/-- The snapshot-building loop `for company_name, board_token in COMPANIES.items():`
producing `all_jobs`. -/
def buildSnapshot (companies : List (String × String))
    (source : String → String → List Job) : List (String × List Job) :=
  companies.map (fun p => (p.1, source p.1 p.2))

/-- Observable outcome of one `scrape_jobs` cycle. -/
structure CycleResult where
  store : List Job
  scraped : List String
  userNewJobs : List (User × List Job)
  emails : List Email
  aborted : Bool
deriving DecidableEq, Repr

/-- The function `scrape_jobs` of `src/job_scraper.py`: early return when no
users exist, otherwise scrape every company of the static mapping into
`all_jobs` and run the per-user dedup/fan-out loop. `aborted` records that an
uncaught store exception ended the cycle early. -/
def scrape_jobs (cf insf nf : String → Bool) (companies : List (String × String))
    (source : String → String → List Job) (users : List User)
    (store : List Job) : CycleResult :=
  if users.isEmpty then ⟨store, [], [], [], false⟩
  else
    let allJobs := buildSnapshot companies source
    let s := processUsers cf insf nf allJobs users store
    ⟨s.store, companies.map Prod.fst, s.userNewJobs, s.emails, !s.ok⟩

/-- Modelled from the spec: `scrape_greenhouse_jobs` lives in
`greenhouse_scraper.py`, which is not part of the sources available here;
per the spec's Posting Source interface it "must fail softly (empty sequence
+ logged error) rather than raise past the Engine", so a failed underlying
fetch (`none`) yields the empty posting list. -/
def scrape_greenhouse_jobs (fetch : Option (List Job)) : List Job :=
  fetch.getD []

/-- Inputs that vary between cycles: failure oracles, the static company
mapping, the posting source and the subscriber directory contents. -/
structure CycleInput where
  cf : String → Bool
  insf : String → Bool
  nf : String → Bool
  companies : List (String × String)
  source : String → String → List Job
  users : List User

/-- Run a sequence of cycles, threading the persistent `jobs` collection. -/
def runCycles : List CycleInput → List Job → List Job
  | [], store => store
  | c :: cs, store =>
    runCycles cs (scrape_jobs c.cf c.insf c.nf c.companies c.source c.users store).store

/-- Run a sequence of cycles and record each cycle's observable outcome. -/
def runCyclesOutputs : List CycleInput → List Job → List CycleResult
  | [], _ => []
  | c :: cs, store =>
    let r := scrape_jobs c.cf c.insf c.nf c.companies c.source c.users store
    r :: runCyclesOutputs cs r.store

/-- The grouping pass of `create_html_table`: build `companies` (a dict from
company name to its jobs, keys in first-appearance order, values in
insertion order) by folding over the jobs list. -/
def addJobToGroups (groups : List (String × List Job)) (j : Job) :
    List (String × List Job) :=
  if groups.any (fun g => g.1 == j.company) then
    groups.map (fun g => if g.1 = j.company then (g.1, g.2 ++ [j]) else g)
  else groups ++ [(j.company, [j])]

/-- The dict `companies` built by `create_html_table` from its jobs list. -/
def groupJobsByCompany (jobs : List Job) : List (String × List Job) :=
  jobs.foldl addJobToGroups []

/-- Lexicographic code-point comparison on character lists, the order Python
`sorted` applies to strings. -/
def lexLe : List Char → List Char → Bool
  | [], _ => true
  | _ :: _, [] => false
  | a :: as, b :: bs =>
    if a.toNat < b.toNat then true
    else if b.toNat < a.toNat then false
    else lexLe as bs

/-- Python string comparison `s <= t`: lexicographic on code points. -/
def strLe (s t : String) : Bool := lexLe s.data t.data

/-- The iteration order `for company in sorted(companies.keys()):` of
`create_html_table`. -/
def sortedCompanies (jobs : List Job) : List String :=
  List.insertionSort (fun a b => strLe a b = true) ((groupJobsByCompany jobs).map Prod.fst)

/-- The sequence of job rows emitted by `create_html_table`: companies in
ascending name order, and within one company the jobs in the order they
appear in the input list. -/
def create_html_table_rows (jobs : List Job) : List Job :=
  (sortedCompanies jobs).flatMap
    (fun c => ((groupJobsByCompany jobs).lookup c).getD [])
theorem existsId_append (a b : List Job) (i : String) :
    existsId (a ++ b) i = (existsId a i || existsId b i) := by
  simp [existsId, List.any_append]

theorem existsId_eq_true_iff (s : List Job) (i : String) :
    existsId s i = true ↔ ∃ j ∈ s, j.job_id = i := by
  simp [existsId]

theorem existsId_eq_false_iff (s : List Job) (i : String) :
    existsId s i = false ↔ ∀ j ∈ s, j.job_id ≠ i := by
  simp [existsId]

theorem processJobs_spec (cf insf : String → Bool) (jobs store acc : List Job) :
    ∃ d : List Job,
      (processJobs cf insf jobs store acc).store = store ++ d ∧
      (processJobs cf insf jobs store acc).newJobs = acc ++ d ∧
      (∀ j ∈ d, j ∈ jobs) ∧
      (∀ j ∈ d, existsId store j.job_id = false) ∧
      (d.map Job.job_id).Nodup := by
  induction jobs generalizing store acc with
  | nil => exact ⟨[], by simp [processJobs], by simp [processJobs], by simp, by simp, by simp⟩
  | cons j rest ih =>
    by_cases h1 : cf j.job_id
    · exact ⟨[], by simp [processJobs, h1], by simp [processJobs, h1], by simp, by simp, by simp⟩
    · by_cases h2 : existsId store j.job_id
      · obtain ⟨d, hs, hn, hmem, hfresh, hnd⟩ := ih store acc
        exact ⟨d, by simpa [processJobs, h1, h2] using hs,
          by simpa [processJobs, h1, h2] using hn,
          fun k hk => List.mem_cons_of_mem _ (hmem k hk), hfresh, hnd⟩
      · by_cases h3 : insf j.job_id
        · exact ⟨[], by simp [processJobs, h1, h2, h3], by simp [processJobs, h1, h2, h3],
            by simp, by simp, by simp⟩
        · obtain ⟨d, hs, hn, hmem, hfresh, hnd⟩ := ih (store ++ [j]) (acc ++ [j])
          refine ⟨j :: d, ?_, ?_, ?_, ?_, ?_⟩
          · simpa [processJobs, h1, h2, h3] using hs
          · simpa [processJobs, h1, h2, h3] using hn
          · intro k hk
            rcases List.mem_cons.mp hk with h | h
            · exact h ▸ List.mem_cons_self _ _
            · exact List.mem_cons_of_mem _ (hmem k h)
          · intro k hk
            rcases List.mem_cons.mp hk with h | h
            · subst h; simpa using h2
            · have := hfresh k h
              rw [existsId_append] at this
              exact (Bool.or_eq_false_iff.mp this).1
          · refine List.nodup_cons.mpr ⟨?_, hnd⟩
            intro hmemid
            rcases List.mem_map.mp hmemid with ⟨k, hk, hid⟩
            have := hfresh k hk
            rw [existsId_append] at this
            have h4 := (Bool.or_eq_false_iff.mp this).2
            rw [existsId_eq_false_iff] at h4
            exact h4 j (List.mem_singleton_self _) hid.symm

theorem mem_map_iff_existsId (s : List Job) (i : String) :
    i ∈ s.map Job.job_id ↔ existsId s i = true := by
  rw [existsId_eq_true_iff]
  constructor
  · intro h
    rcases List.mem_map.mp h with ⟨k, hk, hid⟩
    exact ⟨k, hk, hid⟩
  · rintro ⟨k, hk, hid⟩
    exact List.mem_map.mpr ⟨k, hk, hid⟩

theorem processCompanies_spec (cf insf : String → Bool) (allJobs : List (String × List Job))
    (cs : List String) (store acc : List Job) :
    ∃ d : List Job,
      (processCompanies cf insf allJobs cs store acc).store = store ++ d ∧
      (processCompanies cf insf allJobs cs store acc).newJobs = acc ++ d ∧
      (∀ j ∈ d, ∃ c ∈ cs, ∃ js, allJobs.lookup c = some js ∧ j ∈ js) ∧
      (∀ j ∈ d, existsId store j.job_id = false) ∧
      (d.map Job.job_id).Nodup := by
  induction cs generalizing store acc with
  | nil =>
    exact ⟨[], by simp only [processCompanies]; simp, by simp only [processCompanies]; simp,
      by simp, by simp, by simp⟩
  | cons c cs ih =>
    cases hl : allJobs.lookup c with
    | none =>
      obtain ⟨d, hs, hn, hmem, hfresh, hnd⟩ := ih store acc
      refine ⟨d, by simpa [processCompanies, hl] using hs,
        by simpa [processCompanies, hl] using hn, ?_, hfresh, hnd⟩
      intro k hk
      obtain ⟨c', hc', hrest⟩ := hmem k hk
      exact ⟨c', List.mem_cons_of_mem _ hc', hrest⟩
    | some js =>
      obtain ⟨d1, hs1, hn1, hmem1, hfresh1, hnd1⟩ := processJobs_spec cf insf js store acc
      by_cases hok : (processJobs cf insf js store acc).ok
      · obtain ⟨d2, hs2, hn2, hmem2, hfresh2, hnd2⟩ :=
          ih (processJobs cf insf js store acc).store (processJobs cf insf js store acc).newJobs
        refine ⟨d1 ++ d2, ?_, ?_, ?_, ?_, ?_⟩
        · simp only [processCompanies, hl, hok, if_true]
          rw [hs2, hs1, List.append_assoc]
        · simp only [processCompanies, hl, hok, if_true]
          rw [hn2, hn1, List.append_assoc]
        · intro k hk
          rcases List.mem_append.mp hk with h | h
          · exact ⟨c, List.mem_cons_self _ _, js, hl, hmem1 k h⟩
          · obtain ⟨c', hc', hrest⟩ := hmem2 k h
            exact ⟨c', List.mem_cons_of_mem _ hc', hrest⟩
        · intro k hk
          rcases List.mem_append.mp hk with h | h
          · exact hfresh1 k h
          · have := hfresh2 k h
            rw [hs1, existsId_append] at this
            exact (Bool.or_eq_false_iff.mp this).1
        · rw [List.map_append, List.nodup_append]
          refine ⟨hnd1, hnd2, ?_⟩
          intro i hi1 hi2
          rcases List.mem_map.mp hi2 with ⟨k, hk, hid⟩
          have := hfresh2 k hk
          rw [hs1, existsId_append] at this
          have h4 := (Bool.or_eq_false_iff.mp this).2
          rw [hid] at h4
          rw [mem_map_iff_existsId] at hi1
          rw [hi1] at h4
          exact absurd h4 (by decide)
      · refine ⟨d1, ?_, ?_, ?_, hfresh1, hnd1⟩
        · simp only [processCompanies, hl, hok, if_false]
          exact hs1
        · simp only [processCompanies, hl, hok, if_false]
          exact hn1
        · intro k hk
          exact ⟨c, List.mem_cons_self _ _, js, hl, hmem1 k hk⟩

theorem processUsers_spec (cf insf nf : String → Bool) (allJobs : List (String × List Job))
    (users : List User) (store : List Job) :
    ∃ d : List Job,
      (processUsers cf insf nf allJobs users store).store = store ++ d ∧
      (∀ j ∈ d, ∃ u ∈ users, ∃ c ∈ u.companies, ∃ js, allJobs.lookup c = some js ∧ j ∈ js) ∧
      (∀ j ∈ d, existsId store j.job_id = false) ∧
      (d.map Job.job_id).Nodup ∧
      (∀ p ∈ (processUsers cf insf nf allJobs users store).userNewJobs,
        p.1 ∈ users ∧
        (∀ j ∈ p.2, ∃ c ∈ p.1.companies, ∃ js, allJobs.lookup c = some js ∧ j ∈ js) ∧
        (∀ j ∈ p.2, existsId store j.job_id = false)) ∧
      List.Pairwise (fun p q => ∀ j ∈ p.2, ∀ k ∈ q.2, j.job_id ≠ k.job_id)
        (processUsers cf insf nf allJobs users store).userNewJobs ∧
      (∀ e ∈ (processUsers cf insf nf allJobs users store).emails,
        ∃ p ∈ (processUsers cf insf nf allJobs users store).userNewJobs,
          p.2 ≠ [] ∧ e = send_email_notification nf p.1.email p.1.name p.2) := by
  induction users generalizing store with
  | nil =>
    exact ⟨[], by simp [processUsers], by simp, by simp, by simp,
      by simp [processUsers], by simp [processUsers], by simp [processUsers]⟩
  | cons u us ih =>
    obtain ⟨d1, hs1, hn1, hmem1, hfresh1, hnd1⟩ :=
      processCompanies_spec cf insf allJobs u.companies store []
    by_cases hok : (processCompanies cf insf allJobs u.companies store []).ok
    · obtain ⟨d2, hs2, hmem2, hfresh2, hnd2, hlists2, hpw2, hem2⟩ :=
        ih (processCompanies cf insf allJobs u.companies store []).store
      refine ⟨d1 ++ d2, ?_, ?_, ?_, ?_, ?_, ?_, ?_⟩
      · simp only [processUsers, hok, if_true]
        rw [hs2, hs1, List.append_assoc]
      · intro k hk
        rcases List.mem_append.mp hk with h | h
        · obtain ⟨c, hc, hrest⟩ := hmem1 k h
          exact ⟨u, List.mem_cons_self _ _, c, hc, hrest⟩
        · obtain ⟨u', hu', hrest⟩ := hmem2 k h
          exact ⟨u', List.mem_cons_of_mem _ hu', hrest⟩
      · intro k hk
        rcases List.mem_append.mp hk with h | h
        · exact hfresh1 k h
        · have := hfresh2 k h
          rw [hs1, existsId_append] at this
          exact (Bool.or_eq_false_iff.mp this).1
      · rw [List.map_append, List.nodup_append]
        refine ⟨hnd1, hnd2, ?_⟩
        intro i hi1 hi2
        rcases List.mem_map.mp hi2 with ⟨k, hk, hid⟩
        have := hfresh2 k hk
        rw [hs1, existsId_append] at this
        have h4 := (Bool.or_eq_false_iff.mp this).2
        rw [hid] at h4
        rw [mem_map_iff_existsId] at hi1
        rw [hi1] at h4
        exact absurd h4 (by decide)
      · intro p hp
        simp only [processUsers, hok, if_true] at hp
        rcases List.mem_cons.mp hp with h | h
        · subst h
          refine ⟨List.mem_cons_self _ _, ?_, ?_⟩
          · intro j hj
            rw [hn1] at hj
            simpa using hmem1 j (by simpa using hj)
          · intro j hj
            rw [hn1] at hj
            exact hfresh1 j (by simpa using hj)
        · obtain ⟨hu', hl', hf'⟩ := hlists2 p h
          refine ⟨List.mem_cons_of_mem _ hu', hl', ?_⟩
          intro j hj
          have := hf' j hj
          rw [hs1, existsId_append] at this
          exact (Bool.or_eq_false_iff.mp this).1
      · simp only [processUsers, hok, if_true]
        refine List.pairwise_cons.mpr ⟨?_, hpw2⟩
        intro q hq j hj k hk
        obtain ⟨_, _, hf'⟩ := hlists2 q hq
        have hfk := hf' k hk
        rw [hs1, existsId_append] at hfk
        have h4 := (Bool.or_eq_false_iff.mp hfk).2
        rw [existsId_eq_false_iff] at h4
        rw [hn1] at hj
        intro heq
        exact h4 j (by simpa using hj) heq
      · intro e he
        simp only [processUsers, hok, if_true] at he ⊢
        rcases List.mem_append.mp he with h | h
        · by_cases hemp : (processCompanies cf insf allJobs u.companies store []).newJobs.isEmpty
          · simp [hemp] at h
          · rw [if_neg hemp, List.mem_singleton] at h
            refine ⟨(u, (processCompanies cf insf allJobs u.companies store []).newJobs),
              List.mem_cons_self _ _, ?_, h⟩
            simpa [List.isEmpty_iff] using hemp
        · obtain ⟨p, hp, hpne, hpe⟩ := hem2 e h
          exact ⟨p, List.mem_cons_of_mem _ hp, hpne, hpe⟩
    · refine ⟨d1, ?_, ?_, hfresh1, hnd1, ?_, ?_, ?_⟩
      · simp only [processUsers, hok, if_false]
        exact hs1
      · intro k hk
        obtain ⟨c, hc, hrest⟩ := hmem1 k hk
        exact ⟨u, List.mem_cons_self _ _, c, hc, hrest⟩
      · intro p hp
        simp only [processUsers, hok, if_false] at hp
        simp at hp
      · simp only [processUsers, hok, if_false]
        simp
      · intro e he
        simp only [processUsers, hok, if_false] at he
        simp at he

theorem countId_append (a b : List Job) (i : String) :
    countId (a ++ b) i = countId a i + countId b i := by
  simp [countId, List.filter_append]

theorem countId_eq_zero_iff (s : List Job) (i : String) :
    countId s i = 0 ↔ existsId s i = false := by
  simp [countId, existsId, List.filter_eq_nil_iff, List.length_eq_zero]

theorem countId_cons (j : Job) (rest : List Job) (i : String) :
    countId (j :: rest) i = (if j.job_id = i then 1 else 0) + countId rest i := by
  by_cases h : j.job_id = i
  · simp [countId, List.filter_cons, h]
    omega
  · simp [countId, List.filter_cons, h]

theorem countId_le_one_of_nodup (d : List Job) (i : String)
    (hnd : (d.map Job.job_id).Nodup) : countId d i ≤ 1 := by
  induction d with
  | nil => simp [countId]
  | cons j rest ih =>
    rw [List.map_cons, List.nodup_cons] at hnd
    rw [countId_cons]
    by_cases h : j.job_id = i
    · have h0 : countId rest i = 0 := by
        rw [countId_eq_zero_iff, existsId_eq_false_iff]
        intro k hk hkid
        exact hnd.1 (h ▸ hkid ▸ List.mem_map_of_mem Job.job_id hk)
      simp [h, h0]
    · have := ih hnd.2
      simp [h]
      omega

theorem countId_le_one_append (store d : List Job) (i : String)
    (h : countId store i ≤ 1) (hnd : (d.map Job.job_id).Nodup)
    (hfresh : ∀ j ∈ d, existsId store j.job_id = false) :
    countId (store ++ d) i ≤ 1 := by
  rw [countId_append]
  by_cases h0 : existsId store i
  · have hd : countId d i = 0 := by
      rw [countId_eq_zero_iff, existsId_eq_false_iff]
      intro j hj hid
      have := hfresh j hj
      rw [hid, h0] at this
      exact absurd this (by decide)
    omega
  · have hs : countId store i = 0 := (countId_eq_zero_iff store i).mpr (by
      simpa using h0)
    have hd : countId d i ≤ 1 := countId_le_one_of_nodup d i hnd
    omega

theorem scrape_jobs_store_delta (cf insf nf : String → Bool)
    (companies : List (String × String)) (source : String → String → List Job)
    (users : List User) (store : List Job) :
    ∃ d : List Job,
      (scrape_jobs cf insf nf companies source users store).store = store ++ d ∧
      (∀ j ∈ d, existsId store j.job_id = false) ∧
      (d.map Job.job_id).Nodup := by
  by_cases h : users.isEmpty
  · exact ⟨[], by simp [scrape_jobs, h], by simp, by simp⟩
  · obtain ⟨d, hs, _, hfresh, hnd, _⟩ :=
      processUsers_spec cf insf nf (buildSnapshot companies source) users store
    exact ⟨d, by simpa [scrape_jobs, h] using hs, hfresh, hnd⟩

theorem scrape_jobs_countId (cf insf nf : String → Bool)
    (companies : List (String × String)) (source : String → String → List Job)
    (users : List User) (store : List Job) (i : String) (h : countId store i ≤ 1) :
    countId (scrape_jobs cf insf nf companies source users store).store i ≤ 1 := by
  obtain ⟨d, hs, hfresh, hnd⟩ := scrape_jobs_store_delta cf insf nf companies source users store
  rw [hs]
  exact countId_le_one_append store d i h hnd hfresh

theorem scrape_jobs_existsId_mono (cf insf nf : String → Bool)
    (companies : List (String × String)) (source : String → String → List Job)
    (users : List User) (store : List Job) (i : String) (h : existsId store i = true) :
    existsId (scrape_jobs cf insf nf companies source users store).store i = true := by
  obtain ⟨d, hs, _, _⟩ := scrape_jobs_store_delta cf insf nf companies source users store
  rw [hs, existsId_append, h, Bool.true_or]

theorem scrape_jobs_lists_fresh (cf insf nf : String → Bool)
    (companies : List (String × String)) (source : String → String → List Job)
    (users : List User) (store : List Job) :
    ∀ p ∈ (scrape_jobs cf insf nf companies source users store).userNewJobs,
      ∀ j ∈ p.2, existsId store j.job_id = false := by
  by_cases h : users.isEmpty
  · simp [scrape_jobs, h]
  · obtain ⟨_, _, _, _, _, hlists, _, _⟩ :=
      processUsers_spec cf insf nf (buildSnapshot companies source) users store
    intro p hp
    exact (hlists p (by simpa [scrape_jobs, h] using hp)).2.2

/-- Posting "a1" for employer Acme, the spec's concrete scenario posting. -/
def acmeJob : Job := ⟨"a1", "Acme", "PM", "NY", "u1"⟩

/-- A second Acme posting, used in failure scenarios. -/
def acmeJob2 : Job := ⟨"a2", "Acme", "PM2", "SF", "u2"⟩

/-- A Globex posting. -/
def globexJob : Job := ⟨"g1", "Globex", "PM", "LA", "u3"⟩

/-- A subscriber following Acme. -/
def ann : User := ⟨"1", "Ann", "ann@mail", ["Acme"]⟩

/-- A second subscriber following Acme. -/
def bob : User := ⟨"2", "Bob", "bob@mail", ["Acme"]⟩

/-- A subscriber following Globex. -/
def cid : User := ⟨"3", "Cid", "cid@mail", ["Globex"]⟩

/-- The everywhere-false failure oracle: no store or SMTP call raises. -/
def noFail : String → Bool := fun _ => false

/-- A two-employer static mapping, as `COMPANIES` in `greenhouse_scraper`. -/
def demoCompanies : List (String × String) := [("Acme", "acme"), ("Globex", "globex")]

/-- A posting source returning one posting per employer. -/
def demoSource : String → String → List Job :=
  fun c _ => if c = "Acme" then [acmeJob] else if c = "Globex" then [globexJob] else []

/-- One failure-free cycle over `demoCompanies` with subscribers Ann and Bob. -/
def demoCycle : CycleInput := ⟨noFail, noFail, noFail, demoCompanies, demoSource, [ann, bob]⟩

/-- C2: over any number of cycles, whatever each cycle's subscribers, sources
and failure oracles are, a store holding at most one record per identifier
keeps at most one record per identifier — the insert at line 62 runs only
when the existence check at lines 59-60 returned false. -/
theorem no_duplicate_storage (cycles : List CycleInput) (store : List Job) (i : String)
    (h : countId store i ≤ 1) : countId (runCycles cycles store) i ≤ 1 := by
  induction cycles generalizing store with
  | nil => simpa [runCycles] using h
  | cons c cs ih =>
    simp only [runCycles]
    exact ih _ (scrape_jobs_countId c.cf c.insf c.nf c.companies c.source c.users store i h)

/-- Witness for C2: two identical cycles both returning posting "a1" leave at
most one stored record for "a1". -/
theorem no_duplicate_storage_witness :
    countId [] "a1" ≤ 1 ∧ countId (runCycles [demoCycle, demoCycle] []) "a1" ≤ 1 :=
  ⟨by decide, no_duplicate_storage [demoCycle, demoCycle] [] "a1" (by decide)⟩

/-- C3: once a posting's identifier is in the store (as it is from the end of
the cycle that inserted it), no later cycle ever puts a posting with that
identifier into any subscriber's `user_new_jobs` list, whatever the sources
return. -/
theorem no_renotification_after_insert (cycles : List CycleInput) (store : List Job)
    (P : Job) (h : existsId store P.job_id = true) :
    ∀ r ∈ runCyclesOutputs cycles store, ∀ p ∈ r.userNewJobs, ∀ j ∈ p.2,
      j.job_id ≠ P.job_id := by
  induction cycles generalizing store with
  | nil => intro r hr; simp [runCyclesOutputs] at hr
  | cons c cs ih =>
    intro r hr p hp j hj
    simp only [runCyclesOutputs, List.mem_cons] at hr
    rcases hr with h1 | h1
    · subst h1
      have hf := scrape_jobs_lists_fresh c.cf c.insf c.nf c.companies c.source c.users store p hp j hj
      intro heq
      rw [heq, h] at hf
      exact absurd hf (by decide)
    · exact ih (scrape_jobs c.cf c.insf c.nf c.companies c.source c.users store).store
        (scrape_jobs_existsId_mono c.cf c.insf c.nf c.companies c.source c.users store P.job_id h)
        r h1 p hp j hj

/-- Witness for C3: with "a1" already stored, a further cycle whose source
returns it again notifies nobody about it. -/
theorem no_renotification_after_insert_witness :
    existsId [acmeJob] acmeJob.job_id = true ∧
    ∀ r ∈ runCyclesOutputs [demoCycle] [acmeJob], ∀ p ∈ r.userNewJobs, ∀ j ∈ p.2,
      j.job_id ≠ acmeJob.job_id :=
  ⟨by decide, no_renotification_after_insert [demoCycle] [acmeJob] acmeJob (by decide)⟩

/-- C1 (amended): in one cycle the per-subscriber `user_new_jobs` lists are
pairwise disjoint on posting identifiers — a brand-new posting is appended
only to the first interested subscriber's list, because that subscriber's
pass inserts it and every later subscriber's existence check then finds it. -/
theorem new_posting_first_interested_subscriber_only (cf insf nf : String → Bool)
    (companies : List (String × String)) (source : String → String → List Job)
    (users : List User) (store : List Job) :
    List.Pairwise (fun p q => ∀ j ∈ p.2, ∀ k ∈ q.2, j.job_id ≠ k.job_id)
      (scrape_jobs cf insf nf companies source users store).userNewJobs := by
  by_cases h : users.isEmpty
  · simp [scrape_jobs, h]
  · obtain ⟨_, _, _, _, _, _, hpw, _⟩ :=
      processUsers_spec cf insf nf (buildSnapshot companies source) users store
    simpa [scrape_jobs, h] using hpw

/-- Counterexample to C1 as stated: Ann and Bob both subscribe to Acme, the
source returns the never-before-seen posting "a1" for Acme, and the store is
empty; after the cycle only Ann's `user_new_jobs` contains "a1" while Bob's
is empty (and only one record for "a1" is stored), contradicting the claim
that every such subscriber has it appended. -/
theorem shared_employer_second_subscriber_skipped :
    (scrape_jobs noFail noFail noFail demoCompanies demoSource [ann, bob] []).userNewJobs
        = [(ann, [acmeJob]), (bob, [])] ∧
    countId (scrape_jobs noFail noFail noFail demoCompanies demoSource [ann, bob] []).store
        "a1" = 1 := by
  decide

/-- C5: with no users in the directory, `scrape_jobs` returns immediately:
nothing is scraped, the store is untouched, no list is built, no email is
sent, and no error is raised. -/
theorem no_subscribers_noop (cf insf nf : String → Bool)
    (companies : List (String × String)) (source : String → String → List Job)
    (store : List Job) (users : List User) (h : users = []) :
    scrape_jobs cf insf nf companies source users store = ⟨store, [], [], [], false⟩ := by
  subst h
  rfl

/-- Witness for C5: the empty subscriber list leaves a non-trivial store
untouched and performs no scrape. -/
theorem no_subscribers_noop_witness :
    ([] : List User) = [] ∧
    scrape_jobs noFail noFail noFail demoCompanies demoSource [] [acmeJob] =
      ⟨[acmeJob], [], [], [], false⟩ :=
  ⟨rfl, no_subscribers_noop noFail noFail noFail demoCompanies demoSource [acmeJob] [] rfl⟩

theorem mem_of_lookup_eq_some {l : List (String × List Job)} {c : String}
    {js : List Job} (h : l.lookup c = some js) : (c, js) ∈ l := by
  obtain ⟨l1, l2, rfl, -⟩ := List.lookup_eq_some_iff.mp h
  simp

/-- C4: every job in a subscriber's `user_new_jobs` list was returned in the
scrape snapshot under a company belonging to that subscriber's `companies`
list; when the snapshot is well-formed (each posting listed under the
employer named in its `company` field), the job's employer is one the
subscriber follows — a subscriber following only Acme never receives a
Globex posting. -/
theorem per_user_relevance_filter (cf insf nf : String → Bool)
    (companies : List (String × String)) (source : String → String → List Job)
    (users : List User) (store : List Job) (u : User) (l : List Job) (j : Job)
    (hwf : ∀ p ∈ buildSnapshot companies source, ∀ k ∈ p.2, k.company = p.1)
    (hmem : (u, l) ∈ (scrape_jobs cf insf nf companies source users store).userNewJobs)
    (hj : j ∈ l) :
    ∃ c ∈ u.companies, ∃ js, (buildSnapshot companies source).lookup c = some js ∧
      j ∈ js ∧ j.company = c := by
  by_cases h : users.isEmpty
  · simp [scrape_jobs, h] at hmem
  · obtain ⟨_, _, _, _, hlists, _, _⟩ :=
      (processUsers_spec cf insf nf (buildSnapshot companies source) users store).choose_spec
    have hmem2 : (u, l) ∈
        (processUsers cf insf nf (buildSnapshot companies source) users store).userNewJobs := by
      simpa [scrape_jobs, h] using hmem
    obtain ⟨-, hl, -⟩ := hlists (u, l) hmem2
    obtain ⟨c, hc, js, hjs, hjmem⟩ := hl j hj
    exact ⟨c, hc, js, hjs, hjmem, hwf (c, js) (mem_of_lookup_eq_some hjs) j hjmem⟩

/-- Witness for C4: in the demo cycle Ann's list holds exactly the posting
"a1", scraped under Acme, which Ann follows. -/
theorem per_user_relevance_filter_witness :
    (∀ p ∈ buildSnapshot demoCompanies demoSource, ∀ k ∈ p.2, k.company = p.1) ∧
    ((ann, [acmeJob]) ∈
      (scrape_jobs noFail noFail noFail demoCompanies demoSource [ann, bob] []).userNewJobs) ∧
    acmeJob ∈ [acmeJob] ∧
    (∃ c ∈ ann.companies, ∃ js, (buildSnapshot demoCompanies demoSource).lookup c = some js ∧
      acmeJob ∈ js ∧ acmeJob.company = c) :=
  ⟨by decide, by decide, by decide,
    per_user_relevance_filter noFail noFail noFail demoCompanies demoSource [ann, bob] []
      ann [acmeJob] acmeJob (by decide) (by decide) (by decide)⟩

theorem processUsers_nf_indep (cf insf nf nf' : String → Bool)
    (allJobs : List (String × List Job)) (users : List User) (store : List Job) :
    (processUsers cf insf nf allJobs users store).store
        = (processUsers cf insf nf' allJobs users store).store ∧
    (processUsers cf insf nf allJobs users store).userNewJobs
        = (processUsers cf insf nf' allJobs users store).userNewJobs ∧
    (processUsers cf insf nf allJobs users store).ok
        = (processUsers cf insf nf' allJobs users store).ok ∧
    (processUsers cf insf nf allJobs users store).emails.map
        (fun e => (e.recipient, e.name, e.jobs))
      = (processUsers cf insf nf' allJobs users store).emails.map
        (fun e => (e.recipient, e.name, e.jobs)) := by
  induction users generalizing store with
  | nil => exact ⟨rfl, rfl, rfl, rfl⟩
  | cons u us ih =>
    by_cases hok : (processCompanies cf insf allJobs u.companies store []).ok
    · obtain ⟨h1, h2, h3, h4⟩ := ih (processCompanies cf insf allJobs u.companies store []).store
      simp only [processUsers, hok, if_true]
      refine ⟨h1, by rw [h2], h3, ?_⟩
      rw [List.map_append, List.map_append, h4]
      by_cases hemp : (processCompanies cf insf allJobs u.companies store []).newJobs.isEmpty
      · simp [hemp]
      · simp [hemp, send_email_notification]
    · simp only [processUsers, hok, if_false]
      exact ⟨rfl, rfl, rfl, rfl⟩

/-- C8: a failed notification send is absorbed inside
`send_email_notification`: replacing the SMTP failure oracle changes nothing
in the cycle outcome except the logged success flags — same store, same
`user_new_jobs` lists, same scrape trace, same abort status, and the same
sequence of notification attempts (recipient, name, jobs); moreover each
attempt's success flag is exactly the oracle's verdict for its recipient,
so a failure for one subscriber leaves every other subscriber's attempt in
place. -/
theorem notify_failure_isolated (cf insf nf nf' : String → Bool)
    (companies : List (String × String)) (source : String → String → List Job)
    (users : List User) (store : List Job) :
    (scrape_jobs cf insf nf companies source users store).store
        = (scrape_jobs cf insf nf' companies source users store).store ∧
    (scrape_jobs cf insf nf companies source users store).userNewJobs
        = (scrape_jobs cf insf nf' companies source users store).userNewJobs ∧
    (scrape_jobs cf insf nf companies source users store).scraped
        = (scrape_jobs cf insf nf' companies source users store).scraped ∧
    (scrape_jobs cf insf nf companies source users store).aborted
        = (scrape_jobs cf insf nf' companies source users store).aborted ∧
    (scrape_jobs cf insf nf companies source users store).emails.map
        (fun e => (e.recipient, e.name, e.jobs))
      = (scrape_jobs cf insf nf' companies source users store).emails.map
        (fun e => (e.recipient, e.name, e.jobs)) ∧
    (∀ e ∈ (scrape_jobs cf insf nf companies source users store).emails,
      e.success = !nf e.recipient) := by
  by_cases h : users.isEmpty
  · refine ⟨by simp [scrape_jobs, h], by simp [scrape_jobs, h], by simp [scrape_jobs, h],
      by simp [scrape_jobs, h], by simp [scrape_jobs, h], ?_⟩
    simp [scrape_jobs, h]
  · obtain ⟨h1, h2, h3, h4⟩ :=
      processUsers_nf_indep cf insf nf nf' (buildSnapshot companies source) users store
    obtain ⟨_, _, _, _, _, _, hem⟩ :=
      (processUsers_spec cf insf nf (buildSnapshot companies source) users store).choose_spec
    refine ⟨by simpa [scrape_jobs, h] using h1, by simpa [scrape_jobs, h] using h2,
      by simp [scrape_jobs, h], by simpa [scrape_jobs, h] using congrArg Bool.not h3,
      by simpa [scrape_jobs, h] using h4, ?_⟩
    intro e he
    obtain ⟨p, _, _, hpe⟩ := hem e (by simpa [scrape_jobs, h] using he)
    rw [hpe]
    simp [send_email_notification]

theorem processUsers_append (cf insf nf : String → Bool)
    (allJobs : List (String × List Job)) (us1 us2 : List User) (store : List Job) :
    processUsers cf insf nf allJobs (us1 ++ us2) store =
      if (processUsers cf insf nf allJobs us1 store).ok then
        ⟨(processUsers cf insf nf allJobs us2
            (processUsers cf insf nf allJobs us1 store).store).store,
         (processUsers cf insf nf allJobs us1 store).userNewJobs
           ++ (processUsers cf insf nf allJobs us2
                (processUsers cf insf nf allJobs us1 store).store).userNewJobs,
         (processUsers cf insf nf allJobs us1 store).emails
           ++ (processUsers cf insf nf allJobs us2
                (processUsers cf insf nf allJobs us1 store).store).emails,
         (processUsers cf insf nf allJobs us2
            (processUsers cf insf nf allJobs us1 store).store).ok⟩
      else processUsers cf insf nf allJobs us1 store := by
  induction us1 generalizing store with
  | nil => simp [processUsers]
  | cons u us ih =>
    by_cases hok : (processCompanies cf insf allJobs u.companies store []).ok
    · by_cases hok2 : (processUsers cf insf nf allJobs us
          (processCompanies cf insf allJobs u.companies store []).store).ok
      · simp only [List.cons_append, processUsers, hok, if_true, ih]
        simp [ih, hok2, List.append_assoc]
      · simp only [List.cons_append, processUsers, hok, if_true, ih]
        simp [ih, hok2]
    · simp [List.cons_append, processUsers, hok]

/-- C6 (amended): an existence-check or insert failure raises out of
`scrape_jobs`: with the subscribers split as `us1 ++ u :: us2`, where the
users of `us1` are processed without store failure and user `u`'s pass hits
one, the cycle ends at that point — `us1`'s inserts, lists and emails stand,
`u`'s partial list is discarded and not emailed, no user of `us2` is
processed or notified, and the cycle is marked aborted. The posting is not
merely skipped and processing does not continue. -/
theorem store_failure_aborts_cycle (cf insf nf : String → Bool)
    (companies : List (String × String)) (source : String → String → List Job)
    (us1 : List User) (u : User) (us2 : List User) (store : List Job)
    (h1 : (processUsers cf insf nf (buildSnapshot companies source) us1 store).ok = true)
    (h2 : (processCompanies cf insf (buildSnapshot companies source) u.companies
            (processUsers cf insf nf (buildSnapshot companies source) us1 store).store []).ok
          = false) :
    scrape_jobs cf insf nf companies source (us1 ++ u :: us2) store =
      ⟨(processCompanies cf insf (buildSnapshot companies source) u.companies
          (processUsers cf insf nf (buildSnapshot companies source) us1 store).store []).store,
        companies.map Prod.fst,
        (processUsers cf insf nf (buildSnapshot companies source) us1 store).userNewJobs,
        (processUsers cf insf nf (buildSnapshot companies source) us1 store).emails,
        true⟩ := by
  have hne : (us1 ++ u :: us2).isEmpty = false := by simp
  simp only [scrape_jobs, hne, Bool.false_eq_true, if_false,
    processUsers_append cf insf nf (buildSnapshot companies source) us1 (u :: us2) store,
    h1, if_true, processUsers, h2]
  simp

/-- Counterexample to C6 as stated: Ann follows Acme (postings "a1", "a2"),
Bob follows Acme too, the store is empty, and the existence check raises for
"a1". The claim says "a1" is skipped, "a2" still reaches Ann's list, and
processing continues with Bob; the code instead aborts the whole cycle: no
list is recorded, no email is sent, nothing is stored. -/
theorem store_failure_counterexample :
    scrape_jobs (fun i => i == "a1") noFail noFail demoCompanies
        (fun c _ => if c = "Acme" then [acmeJob, acmeJob2] else []) [ann, bob] [] =
      ⟨[], ["Acme", "Globex"], [], [], true⟩ := by
  decide

/-- Witness for C6 (amended): Ann (Acme) is processed and notified, Bob's
Globex pass hits a failing existence check for "g1", and Cid (Acme) behind
him is never processed. -/
theorem store_failure_aborts_cycle_witness :
    (processUsers (fun i => i == "g1") noFail noFail
        (buildSnapshot demoCompanies demoSource) [ann] []).ok = true ∧
    (processCompanies (fun i => i == "g1") noFail
        (buildSnapshot demoCompanies demoSource) cid.companies
        (processUsers (fun i => i == "g1") noFail noFail
          (buildSnapshot demoCompanies demoSource) [ann] []).store []).ok = false ∧
    scrape_jobs (fun i => i == "g1") noFail noFail demoCompanies demoSource
        ([ann] ++ cid :: [bob]) [] =
      ⟨(processCompanies (fun i => i == "g1") noFail
          (buildSnapshot demoCompanies demoSource) cid.companies
          (processUsers (fun i => i == "g1") noFail noFail
            (buildSnapshot demoCompanies demoSource) [ann] []).store []).store,
        demoCompanies.map Prod.fst,
        (processUsers (fun i => i == "g1") noFail noFail
          (buildSnapshot demoCompanies demoSource) [ann] []).userNewJobs,
        (processUsers (fun i => i == "g1") noFail noFail
          (buildSnapshot demoCompanies demoSource) [ann] []).emails,
        true⟩ :=
  ⟨by decide, by decide,
    store_failure_aborts_cycle (fun i => i == "g1") noFail noFail demoCompanies demoSource
      [ann] cid [bob] [] (by decide) (by decide)⟩

theorem processJobs_ok_of_noFail (cf insf : String → Bool) (hcf : ∀ i, cf i = false)
    (hinsf : ∀ i, insf i = false) (jobs store acc : List Job) :
    (processJobs cf insf jobs store acc).ok = true := by
  induction jobs generalizing store acc with
  | nil => rfl
  | cons j rest ih =>
    simp only [processJobs, hcf j.job_id, hinsf j.job_id, Bool.false_eq_true, if_false]
    by_cases h : existsId store j.job_id
    · simp [h, ih]
    · simp [h, Bool.false_eq_true, ih]

theorem processCompanies_ok_of_noFail (cf insf : String → Bool) (hcf : ∀ i, cf i = false)
    (hinsf : ∀ i, insf i = false) (allJobs : List (String × List Job))
    (cs : List String) (store acc : List Job) :
    (processCompanies cf insf allJobs cs store acc).ok = true := by
  induction cs generalizing store acc with
  | nil => rfl
  | cons c cs ih =>
    cases hl : allJobs.lookup c with
    | none => simp [processCompanies, hl, ih]
    | some js =>
      simp [processCompanies, hl, processJobs_ok_of_noFail cf insf hcf hinsf js store acc, ih]

theorem processUsers_ok_of_noFail (cf insf nf : String → Bool) (hcf : ∀ i, cf i = false)
    (hinsf : ∀ i, insf i = false) (allJobs : List (String × List Job))
    (users : List User) (store : List Job) :
    (processUsers cf insf nf allJobs users store).ok = true := by
  induction users generalizing store with
  | nil => rfl
  | cons u us ih =>
    simp [processUsers,
      processCompanies_ok_of_noFail cf insf hcf hinsf allJobs u.companies store [], ih]

/-- C7: `scrape_greenhouse_jobs` fails softly, so when the underlying fetch
for employer `c0` fails (`none`), the cycle's outcome is identical to a
cycle in which that employer's scrape succeeded with an empty posting list —
every other employer is scraped, processed and notified exactly the same;
moreover the failed employer is still scraped (it appears in the scrape
trace) and, absent store failures, the cycle is never aborted. -/
theorem failed_employer_scrape_isolated (cf insf nf : String → Bool)
    (companies : List (String × String)) (raw : String → String → Option (List Job))
    (users : List User) (store : List Job) (c0 t0 : String)
    (hfail : raw c0 t0 = none) (hcf : ∀ i, cf i = false) (hinsf : ∀ i, insf i = false)
    (husers : users ≠ []) :
    scrape_jobs cf insf nf companies (fun c t => scrape_greenhouse_jobs (raw c t)) users store
      = scrape_jobs cf insf nf companies
          (fun c t => scrape_greenhouse_jobs (if c = c0 ∧ t = t0 then some [] else raw c t))
          users store
    ∧ (scrape_jobs cf insf nf companies (fun c t => scrape_greenhouse_jobs (raw c t))
        users store).scraped = companies.map Prod.fst
    ∧ (scrape_jobs cf insf nf companies (fun c t => scrape_greenhouse_jobs (raw c t))
        users store).aborted = false := by
  have hne : users.isEmpty = false := by
    cases users with
    | nil => exact absurd rfl husers
    | cons a l => rfl
  have hsrc : (fun c t => scrape_greenhouse_jobs (raw c t))
      = fun c t => scrape_greenhouse_jobs (if c = c0 ∧ t = t0 then some [] else raw c t) := by
    funext c t
    by_cases h : c = c0 ∧ t = t0
    · rw [if_pos h, h.1, h.2, hfail]
      rfl
    · rw [if_neg h]
  refine ⟨by rw [hsrc], ?_, ?_⟩
  · simp [scrape_jobs, hne]
  · simp [scrape_jobs, hne,
      processUsers_ok_of_noFail cf insf nf hcf hinsf
        (buildSnapshot companies (fun c t => scrape_greenhouse_jobs (raw c t))) users store]

/-- A raw posting fetch whose Acme request fails while Globex succeeds. -/
def demoRaw : String → String → Option (List Job) :=
  fun c _ => if c = "Acme" then none else if c = "Globex" then some [globexJob] else some []

/-- Witness for C7: Acme's scrape fails, yet the cycle for Cid (who follows
Globex) behaves exactly as if Acme had returned no postings. -/
theorem failed_employer_scrape_isolated_witness :
    demoRaw "Acme" "acme" = none ∧ (∀ i, noFail i = false) ∧ (∀ i, noFail i = false) ∧
    ([cid] : List User) ≠ [] ∧
    (scrape_jobs noFail noFail noFail demoCompanies
        (fun c t => scrape_greenhouse_jobs (demoRaw c t)) [cid] []
      = scrape_jobs noFail noFail noFail demoCompanies
          (fun c t => scrape_greenhouse_jobs
            (if c = "Acme" ∧ t = "acme" then some [] else demoRaw c t)) [cid] []
    ∧ (scrape_jobs noFail noFail noFail demoCompanies
        (fun c t => scrape_greenhouse_jobs (demoRaw c t)) [cid] []).scraped
          = demoCompanies.map Prod.fst
    ∧ (scrape_jobs noFail noFail noFail demoCompanies
        (fun c t => scrape_greenhouse_jobs (demoRaw c t)) [cid] []).aborted = false) :=
  ⟨rfl, fun _ => rfl, fun _ => rfl, by decide,
    failed_employer_scrape_isolated noFail noFail noFail demoCompanies demoRaw [cid] []
      "Acme" "acme" rfl (fun _ => rfl) (fun _ => rfl) (by decide)⟩

theorem lexLe_refl (l : List Char) : lexLe l l = true := by
  induction l with
  | nil => rfl
  | cons a as ih => simp [lexLe, Nat.lt_irrefl, ih]

theorem lexLe_total (a b : List Char) : lexLe a b = true ∨ lexLe b a = true := by
  induction a generalizing b with
  | nil => exact Or.inl rfl
  | cons x as ih =>
    cases b with
    | nil => exact Or.inr rfl
    | cons y bs =>
      rcases Nat.lt_trichotomy x.toNat y.toNat with h | h | h
      · exact Or.inl (by simp [lexLe, h])
      · have h1 : ¬x.toNat < y.toNat := by omega
        have h2 : ¬y.toNat < x.toNat := by omega
        rcases ih bs with h3 | h3
        · exact Or.inl (by simp [lexLe, h1, h2, h3])
        · exact Or.inr (by simp [lexLe, h1, h2, h3])
      · exact Or.inr (by simp [lexLe, h])

theorem lexLe_trans (a b c : List Char) (h1 : lexLe a b = true)
    (h2 : lexLe b c = true) : lexLe a c = true := by
  induction a generalizing b c with
  | nil => rfl
  | cons x as ih =>
    cases b with
    | nil => simp [lexLe] at h1
    | cons y bs =>
      cases c with
      | nil => simp [lexLe] at h2
      | cons z cs =>
        by_cases hxy : x.toNat < y.toNat
        · by_cases hyz : y.toNat < z.toNat
          · simp [lexLe, Nat.lt_trans hxy hyz]
          · by_cases hzy : z.toNat < y.toNat
            · simp [lexLe, hyz, hzy] at h2
            · have hxz : x.toNat < z.toNat := by omega
              simp [lexLe, hxz]
        · by_cases hyx : y.toNat < x.toNat
          · simp [lexLe, hxy, hyx] at h1
          · by_cases hyz : y.toNat < z.toNat
            · have hxz : x.toNat < z.toNat := by omega
              simp [lexLe, hxz]
            · by_cases hzy : z.toNat < y.toNat
              · simp [lexLe, hyz, hzy] at h2
              · have hx : ¬x.toNat < z.toNat := by omega
                have hz : ¬z.toNat < x.toNat := by omega
                simp only [lexLe, hxy, hyx, hyz, hzy, hx, hz, if_false] at h1 h2 ⊢
                exact ih bs cs h1 h2

theorem strLe_refl (s : String) : strLe s s = true := lexLe_refl s.data

theorem strLe_total (s t : String) : strLe s t = true ∨ strLe t s = true :=
  lexLe_total s.data t.data

theorem strLe_trans (s t v : String) (h1 : strLe s t = true) (h2 : strLe t v = true) :
    strLe s v = true :=
  lexLe_trans s.data t.data v.data h1 h2

instance : IsTotal String (fun a b => strLe a b = true) :=
  ⟨strLe_total⟩

instance : IsTrans String (fun a b => strLe a b = true) :=
  ⟨strLe_trans⟩

theorem lookup_map_update (groups : List (String × List Job)) (j : Job) (c : String) :
    (groups.map (fun g => if g.1 = j.company then (g.1, g.2 ++ [j]) else g)).lookup c
      = (groups.lookup c).map (fun l => if c = j.company then l ++ [j] else l) := by
  induction groups with
  | nil => rfl
  | cons g gs ih =>
    obtain ⟨k, v⟩ := g
    by_cases hck : c = k
    · have h1 : (c == k) = true := by simp [hck]
      by_cases hkj : k = j.company
      · have h3 : c = j.company := hck.trans hkj
        simp [List.lookup_cons, h1, hkj, h3]
      · have h3 : ¬c = j.company := fun h => hkj (hck.symm.trans h)
        simp [List.lookup_cons, h1, hkj, h3]
    · have h1 : (c == k) = false := by simp [hck]
      by_cases hkj : k = j.company
      · have h3 : (c == j.company) = false := by
          simp only [beq_eq_false_iff_ne]
          exact fun h => hck (h.trans hkj.symm)
        simp [List.lookup_cons, h1, hkj, h3, ih]
      · simp [List.lookup_cons, h1, hkj, ih]

theorem lookup_addJobToGroups (groups : List (String × List Job)) (j : Job) (c : String) :
    ((addJobToGroups groups j).lookup c).getD []
      = (groups.lookup c).getD [] ++ (if j.company = c then [j] else []) := by
  by_cases hp : groups.any (fun g => g.1 == j.company)
  · rw [addJobToGroups, if_pos hp, lookup_map_update]
    by_cases hc : c = j.company
    · cases hl : groups.lookup c with
      | none =>
        rw [List.lookup_eq_none_iff] at hl
        rw [List.any_eq_true] at hp
        obtain ⟨g, hg, hgj⟩ := hp
        have h2 := hl g hg
        rw [hc] at h2
        rw [beq_iff_eq] at hgj
        rw [bne_iff_ne] at h2
        exact absurd hgj.symm h2
      | some l => simp [hl, hc]
    · have hcj : ¬j.company = c := fun h => hc (Eq.symm h)
      cases hl : groups.lookup c with
      | none => simp [hl, hc, hcj]
      | some l => simp [hl, hc, hcj]
  · rw [Bool.not_eq_true] at hp
    rw [addJobToGroups, if_neg (by rw [hp]; exact Bool.false_ne_true), List.lookup_append]
    have hl : groups.lookup c = none ∨ ¬j.company = c := by
      by_cases hc : j.company = c
      · left
        rw [List.lookup_eq_none_iff]
        intro p hpg
        rw [List.any_eq_false] at hp
        have h3 := hp p hpg
        rw [beq_iff_eq] at h3
        rw [bne_iff_ne]
        intro h4
        exact h3 (hc.trans h4).symm
      · right
        exact hc
    by_cases hc : j.company = c
    · rcases hl with hl | hl
      · have hbeq : (c == j.company) = true := by rw [beq_iff_eq]; exact Eq.symm hc
        simp [hl, List.lookup_cons, hbeq, hc]
      · exact absurd hc hl
    · have hbeq : (c == j.company) = false := by
        rw [beq_eq_false_iff_ne]
        exact fun h => hc (Eq.symm h)
      cases hg : groups.lookup c with
      | none => simp [hg, List.lookup_cons, hbeq, hc]
      | some l => simp [hg, hc]

theorem foldl_addJob_lookup (jobs : List Job) (groups : List (String × List Job)) (c : String) :
    ((jobs.foldl addJobToGroups groups).lookup c).getD []
      = (groups.lookup c).getD [] ++ jobs.filter (fun k => k.company == c) := by
  induction jobs generalizing groups with
  | nil => simp
  | cons j rest ih =>
    rw [List.foldl_cons, ih (addJobToGroups groups j), lookup_addJobToGroups]
    by_cases h : j.company = c
    · have hb : (j.company == c) = true := by simp [h]
      simp [List.filter_cons, h, hb, List.append_assoc]
    · have hb : (j.company == c) = false := by simp [h]
      simp [List.filter_cons, h, hb]

theorem groupJobsByCompany_lookup (jobs : List Job) (c : String) :
    ((groupJobsByCompany jobs).lookup c).getD [] = jobs.filter (fun k => k.company == c) := by
  rw [groupJobsByCompany, foldl_addJob_lookup]
  simp

theorem keys_addJobToGroups (groups : List (String × List Job)) (j : Job) :
    (addJobToGroups groups j).map Prod.fst
      = if j.company ∈ groups.map Prod.fst then groups.map Prod.fst
        else groups.map Prod.fst ++ [j.company] := by
  rw [addJobToGroups]
  by_cases hp : groups.any (fun g => g.1 == j.company)
  · have hmem : j.company ∈ groups.map Prod.fst := by
      rw [List.any_eq_true] at hp
      obtain ⟨g, hg, hgj⟩ := hp
      rw [beq_iff_eq] at hgj
      exact hgj ▸ List.mem_map_of_mem Prod.fst hg
    rw [if_pos hp, if_pos hmem, List.map_map]
    apply List.map_congr_left
    intro g _
    by_cases hgj : g.1 = j.company
    · simp [hgj]
    · simp [hgj]
  · have hmem : j.company ∉ groups.map Prod.fst := by
      intro hmem
      obtain ⟨g, hg, hgj⟩ := List.mem_map.mp hmem
      rw [List.any_eq_true] at hp
      exact hp ⟨g, hg, by simp [hgj]⟩
    rw [if_neg hp, if_neg hmem, List.map_append]
    simp

theorem mem_keys_addJobToGroups (groups : List (String × List Job)) (j : Job) (c : String) :
    c ∈ (addJobToGroups groups j).map Prod.fst
      ↔ c ∈ groups.map Prod.fst ∨ c = j.company := by
  rw [keys_addJobToGroups]
  by_cases hp : j.company ∈ groups.map Prod.fst
  · rw [if_pos hp]
    constructor
    · exact Or.inl
    · rintro (h | h)
      · exact h
      · exact h ▸ hp
  · rw [if_neg hp]
    simp

theorem nodup_keys_addJobToGroups (groups : List (String × List Job)) (j : Job)
    (h : (groups.map Prod.fst).Nodup) : ((addJobToGroups groups j).map Prod.fst).Nodup := by
  rw [keys_addJobToGroups]
  by_cases hp : j.company ∈ groups.map Prod.fst
  · rwa [if_pos hp]
  · rw [if_neg hp]
    simp [List.nodup_append, h, hp]

theorem nodup_keys_foldl (jobs : List Job) (groups : List (String × List Job))
    (h : (groups.map Prod.fst).Nodup) :
    ((jobs.foldl addJobToGroups groups).map Prod.fst).Nodup := by
  induction jobs generalizing groups with
  | nil => exact h
  | cons j rest ih => exact ih _ (nodup_keys_addJobToGroups groups j h)

theorem groupJobsByCompany_keys_nodup (jobs : List Job) :
    ((groupJobsByCompany jobs).map Prod.fst).Nodup :=
  nodup_keys_foldl jobs [] (by simp)

theorem mem_keys_foldl (jobs : List Job) (groups : List (String × List Job)) (c : String) :
    c ∈ (jobs.foldl addJobToGroups groups).map Prod.fst
      ↔ c ∈ groups.map Prod.fst ∨ ∃ j ∈ jobs, j.company = c := by
  induction jobs generalizing groups with
  | nil => simp
  | cons j rest ih =>
    rw [List.foldl_cons, ih, mem_keys_addJobToGroups]
    constructor
    · rintro ((h | h) | ⟨k, hk, hkc⟩)
      · exact Or.inl h
      · exact Or.inr ⟨j, List.mem_cons_self _ _, h.symm⟩
      · exact Or.inr ⟨k, List.mem_cons_of_mem _ hk, hkc⟩
    · rintro (h | ⟨k, hk, hkc⟩)
      · exact Or.inl (Or.inl h)
      · rcases List.mem_cons.mp hk with h1 | h1
        · exact Or.inl (Or.inr (h1 ▸ hkc).symm)
        · exact Or.inr ⟨k, h1, hkc⟩

theorem groupJobsByCompany_mem_keys (jobs : List Job) (c : String) :
    c ∈ (groupJobsByCompany jobs).map Prod.fst ↔ ∃ j ∈ jobs, j.company = c := by
  rw [groupJobsByCompany, mem_keys_foldl]
  simp

theorem mem_group_company (jobs : List Job) (c : String) (j : Job)
    (h : j ∈ ((groupJobsByCompany jobs).lookup c).getD []) : j.company = c := by
  rw [groupJobsByCompany_lookup] at h
  have := List.of_mem_filter h
  rwa [beq_iff_eq] at this

theorem flatMap_lookup_filter (jobs : List Job) (ks : List String) (c : String)
    (hnd : ks.Nodup) :
    (ks.flatMap (fun c' => ((groupJobsByCompany jobs).lookup c').getD [])).filter
        (fun j => j.company == c)
      = if c ∈ ks then jobs.filter (fun j => j.company == c) else [] := by
  induction ks with
  | nil => simp
  | cons k ks ih =>
    rw [List.nodup_cons] at hnd
    rw [List.flatMap_cons, List.filter_append, ih hnd.2]
    by_cases hkc : k = c
    · subst hkc
      have hnotin : ¬k ∈ ks := hnd.1
      rw [if_neg hnotin, if_pos (List.mem_cons_self _ _), groupJobsByCompany_lookup,
        List.filter_filter, List.append_nil]
      apply List.filter_congr
      intro a _
      rw [Bool.and_self]
    · have hhead : (((groupJobsByCompany jobs).lookup k).getD []).filter
          (fun j => j.company == c) = [] := by
        rw [List.filter_eq_nil_iff]
        intro a ha hac
        rw [beq_iff_eq] at hac
        exact hkc ((mem_group_company jobs k a ha) ▸ hac ▸ rfl)
      rw [hhead, List.nil_append]
      by_cases hc : c ∈ ks
      · rw [if_pos hc, if_pos (List.mem_cons_of_mem _ hc)]
      · rw [if_neg hc, if_neg ?_]
        intro hmem
        rcases List.mem_cons.mp hmem with h1 | h1
        · exact hkc h1.symm
        · exact hc h1

theorem sorted_const_blocks (l : List String) (k : String) (h : ∀ x ∈ l, x = k) :
    List.Sorted (fun a b => strLe a b = true) l := by
  induction l with
  | nil => exact List.sorted_nil
  | cons x xs ih =>
    rw [List.sorted_cons]
    refine ⟨?_, ih fun y hy => h y (List.mem_cons_of_mem _ hy)⟩
    intro b hb
    rw [h x (List.mem_cons_self _ _), h b (List.mem_cons_of_mem _ hb)]
    exact strLe_refl k

theorem sorted_flatMap_groups (jobs : List Job) (ks : List String)
    (hs : List.Sorted (fun a b => strLe a b = true) ks) :
    List.Sorted (fun a b => strLe a b = true)
      ((ks.flatMap (fun c' => ((groupJobsByCompany jobs).lookup c').getD [])).map
        Job.company) := by
  induction ks with
  | nil => exact List.sorted_nil
  | cons k ks ih =>
    rw [List.sorted_cons] at hs
    rw [List.flatMap_cons, List.map_append]
    rw [List.Sorted, List.pairwise_append]
    refine ⟨?_, ih hs.2, ?_⟩
    · apply sorted_const_blocks _ k
      intro x hx
      obtain ⟨j, hj, hjx⟩ := List.mem_map.mp hx
      exact hjx ▸ mem_group_company jobs k j hj
    · intro x hx y hy
      obtain ⟨j, hj, hjx⟩ := List.mem_map.mp hx
      obtain ⟨j2, hj2, hjy⟩ := List.mem_map.mp hy
      obtain ⟨c', hc', hjc'⟩ := List.mem_flatMap.mp hj2
      have hx2 : x = k := hjx ▸ mem_group_company jobs k j hj
      have hy2 : y = c' := hjy ▸ mem_group_company jobs c' j2 hjc'
      rw [hx2, hy2]
      exact hs.1 c' hc'

theorem sortedCompanies_mem (jobs : List Job) (c : String) :
    c ∈ sortedCompanies jobs ↔ ∃ j ∈ jobs, j.company = c := by
  rw [sortedCompanies, (List.perm_insertionSort _ _).mem_iff, groupJobsByCompany_mem_keys]

theorem sortedCompanies_nodup (jobs : List Job) : (sortedCompanies jobs).Nodup :=
  (List.perm_insertionSort _ _).nodup_iff.mpr (groupJobsByCompany_keys_nodup jobs)

theorem create_html_table_rows_filter (jobs : List Job) (c : String) :
    (create_html_table_rows jobs).filter (fun j => j.company == c)
      = jobs.filter (fun j => j.company == c) := by
  rw [create_html_table_rows, flatMap_lookup_filter jobs _ c (sortedCompanies_nodup jobs)]
  by_cases h : c ∈ sortedCompanies jobs
  · rw [if_pos h]
  · rw [if_neg h]
    symm
    rw [List.filter_eq_nil_iff]
    intro a ha hac
    rw [beq_iff_eq] at hac
    exact h ((sortedCompanies_mem jobs c).mpr ⟨a, ha, hac⟩)

theorem create_html_table_rows_sorted (jobs : List Job) :
    List.Sorted (fun a b => strLe a b = true)
      ((create_html_table_rows jobs).map Job.company) :=
  sorted_flatMap_groups jobs (sortedCompanies jobs)
    (List.sorted_insertionSort (fun a b => strLe a b = true)
      ((groupJobsByCompany jobs).map Prod.fst))

/-- C9: every notification handed to `send_email_notification` renders its
jobs through `create_html_table`; the table's row sequence is grouped by
employer name in ascending order (lexicographic on code points, as Python's
`sorted`) — every row of one employer is contiguous and employers appear in
nondecreasing order — and within one employer the rows keep exactly the
insertion order of the subscriber's `user_new_jobs` list. -/
theorem notification_rows_grouped (cf insf nf : String → Bool)
    (companies : List (String × String)) (source : String → String → List Job)
    (users : List User) (store : List Job) (e : Email)
    (_he : e ∈ (scrape_jobs cf insf nf companies source users store).emails) :
    List.Sorted (fun a b => strLe a b = true)
      ((create_html_table_rows e.jobs).map Job.company) ∧
    ∀ c, (create_html_table_rows e.jobs).filter (fun j => j.company == c)
        = e.jobs.filter (fun j => j.company == c) :=
  ⟨create_html_table_rows_sorted e.jobs, fun c => create_html_table_rows_filter e.jobs c⟩

/-- A posting for employer Alpha. -/
def alphaJob : Job := ⟨"al1", "Alpha", "PM", "NY", "u4"⟩

/-- A posting for employer Beta. -/
def betaJob : Job := ⟨"be1", "Beta", "PM", "SF", "u5"⟩

/-- A subscriber following Beta first and Alpha second, so Beta postings are
appended to the `user_new_jobs` list before Alpha postings. -/
def dora : User := ⟨"4", "Dora", "dora@mail", ["Beta", "Alpha"]⟩

/-- A static mapping that lists Beta before Alpha. -/
def demoCompaniesBA : List (String × String) := [("Beta", "beta"), ("Alpha", "alpha")]

/-- A source with one posting for each of Beta and Alpha. -/
def demoSourceBA : String → String → List Job :=
  fun c _ => if c = "Beta" then [betaJob] else if c = "Alpha" then [alphaJob] else []

/-- Witness for C9: Dora's notification collects the Beta posting before the
Alpha posting, and the rendered table regroups them with Alpha first. -/
theorem notification_rows_grouped_witness :
    (⟨"dora@mail", "Dora", [betaJob, alphaJob], true⟩ : Email)
        ∈ (scrape_jobs noFail noFail noFail demoCompaniesBA demoSourceBA
            [dora] []).emails ∧
    (List.Sorted (fun a b => strLe a b = true)
      ((create_html_table_rows (⟨"dora@mail", "Dora", [betaJob, alphaJob], true⟩ : Email).jobs).map
        Job.company) ∧
    ∀ c, (create_html_table_rows
            (⟨"dora@mail", "Dora", [betaJob, alphaJob], true⟩ : Email).jobs).filter
          (fun j => j.company == c)
        = (⟨"dora@mail", "Dora", [betaJob, alphaJob], true⟩ : Email).jobs.filter
          (fun j => j.company == c)) :=
  ⟨by decide,
    notification_rows_grouped noFail noFail noFail demoCompaniesBA demoSourceBA [dora] []
      ⟨"dora@mail", "Dora", [betaJob, alphaJob], true⟩ (by decide)⟩

theorem processJobs_mem (cf insf : String → Bool) (hcf : ∀ x, cf x = false)
    (hinsf : ∀ x, insf x = false) (jobs store acc : List Job) (j : Job)
    (hnd : (jobs.map Job.job_id).Nodup) (hj : j ∈ jobs)
    (hfresh : existsId store j.job_id = false) :
    j ∈ (processJobs cf insf jobs store acc).newJobs := by
  induction jobs generalizing store acc with
  | nil => simp at hj
  | cons k rest ih =>
    rw [List.map_cons, List.nodup_cons] at hnd
    rcases List.mem_cons.mp hj with h | h
    · subst h
      obtain ⟨d, hs, hn, _, _, _⟩ := processJobs_spec cf insf rest (store ++ [j]) (acc ++ [j])
      simp only [processJobs, hcf j.job_id, hinsf j.job_id, Bool.false_eq_true, if_false, hfresh]
      rw [hn]
      simp
    · by_cases hex : existsId store k.job_id
      · simp only [processJobs, hcf k.job_id, hinsf k.job_id, Bool.false_eq_true, if_false,
          hex, if_true]
        exact ih store acc hnd.2 h hfresh
      · have hexf : existsId store k.job_id = false := by simpa using hex
        simp only [processJobs, hcf k.job_id, hinsf k.job_id, Bool.false_eq_true, if_false, hexf]
        apply ih (store ++ [k]) (acc ++ [k]) hnd.2 h
        rw [existsId_append, hfresh, Bool.false_or]
        rw [existsId_eq_false_iff]
        intro r hr
        rw [List.mem_singleton] at hr
        subst hr
        intro heq
        exact hnd.1 (heq ▸ List.mem_map_of_mem Job.job_id h)

/-- C10: a fresh posting with identifier `i` returned only for employer `c0`,
which no current subscriber follows, is never inserted (`i` stays absent
from the store) even though `c0` is still scraped; and in a later cycle run
from the resulting store, a subscriber whose list is exactly `[c0]` gets the
posting in their `user_new_jobs` and a notification is sent for it. -/
theorem unfollowed_employer_posting_deferred (cf insf nf : String → Bool)
    (companies : List (String × String)) (source : String → String → List Job)
    (users : List User) (store : List Job) (c0 i : String)
    (hc0 : c0 ∈ companies.map Prod.fst)
    (hno : ∀ u ∈ users, c0 ∉ u.companies)
    (hfresh : existsId store i = false)
    (honly : ∀ c, c ≠ c0 → ∀ js, (buildSnapshot companies source).lookup c = some js →
      ∀ j ∈ js, j.job_id ≠ i)
    (husers : users ≠ [])
    (u2 : User) (hu2 : u2.companies = [c0])
    (cf2 insf2 nf2 : String → Bool) (hcf2 : ∀ x, cf2 x = false)
    (hinsf2 : ∀ x, insf2 x = false)
    (js0 : List Job) (hjs : (buildSnapshot companies source).lookup c0 = some js0)
    (j0 : Job) (hj0 : j0 ∈ js0) (hj0i : j0.job_id = i)
    (hnodup : (js0.map Job.job_id).Nodup) :
    existsId (scrape_jobs cf insf nf companies source users store).store i = false ∧
    c0 ∈ (scrape_jobs cf insf nf companies source users store).scraped ∧
    (∃ l, (scrape_jobs cf2 insf2 nf2 companies source [u2]
            (scrape_jobs cf insf nf companies source users store).store).userNewJobs
          = [(u2, l)] ∧ j0 ∈ l ∧
        (scrape_jobs cf2 insf2 nf2 companies source [u2]
            (scrape_jobs cf insf nf companies source users store).store).emails
          = [send_email_notification nf2 u2.email u2.name l]) := by
  have hne : users.isEmpty = false := by
    cases users with
    | nil => exact absurd rfl husers
    | cons a l => rfl
  obtain ⟨d, hs, hmemd, _, _, _, _, _⟩ :=
    processUsers_spec cf insf nf (buildSnapshot companies source) users store
  have hpart1 : existsId (scrape_jobs cf insf nf companies source users store).store i
      = false := by
    have hstore : (scrape_jobs cf insf nf companies source users store).store
        = store ++ d := by simpa [scrape_jobs, hne] using hs
    rw [hstore, existsId_append, hfresh, Bool.false_or, existsId_eq_false_iff]
    intro j hj
    obtain ⟨u, hu, c, hc, js, hjs2, hjmem⟩ := hmemd j hj
    have hcc0 : c ≠ c0 := fun h => hno u hu (h ▸ hc)
    exact honly c hcc0 js hjs2 j hjmem
  have hpart2 : c0 ∈ (scrape_jobs cf insf nf companies source users store).scraped := by
    simpa [scrape_jobs, hne] using hc0
  refine ⟨hpart1, hpart2, ?_⟩
  set store2 := (scrape_jobs cf insf nf companies source users store).store with hstore2
  have hfresh2 : existsId store2 j0.job_id = false := by rw [hj0i]; exact hpart1
  have hmem2 : j0 ∈ (processJobs cf2 insf2 js0 store2 []).newJobs :=
    processJobs_mem cf2 insf2 hcf2 hinsf2 js0 store2 [] j0 hnodup hj0 hfresh2
  have hok1 : (processJobs cf2 insf2 js0 store2 []).ok = true :=
    processJobs_ok_of_noFail cf2 insf2 hcf2 hinsf2 js0 store2 []
  have hpc : processCompanies cf2 insf2 (buildSnapshot companies source) [c0] store2 []
      = ⟨(processJobs cf2 insf2 js0 store2 []).store,
         (processJobs cf2 insf2 js0 store2 []).newJobs, true⟩ := by
    simp only [processCompanies, hjs, hok1, if_true]
  have hempty : (processJobs cf2 insf2 js0 store2 []).newJobs.isEmpty = false := by
    cases hsn : (processJobs cf2 insf2 js0 store2 []).newJobs with
    | nil => rw [hsn] at hmem2; simp at hmem2
    | cons a l => rfl
  have hpu : processUsers cf2 insf2 nf2 (buildSnapshot companies source) [u2] store2
      = ⟨(processJobs cf2 insf2 js0 store2 []).store,
         [(u2, (processJobs cf2 insf2 js0 store2 []).newJobs)],
         [send_email_notification nf2 u2.email u2.name
           (processJobs cf2 insf2 js0 store2 []).newJobs], true⟩ := by
    simp only [processUsers, hu2, hpc, hempty, if_true, Bool.false_eq_true, if_false,
      List.append_nil]
  refine ⟨(processJobs cf2 insf2 js0 store2 []).newJobs, ?_, hmem2, ?_⟩
  · simp [scrape_jobs, hpu]
  · simp [scrape_jobs, hpu]

theorem demoHonly : ∀ c, c ≠ "Globex" →
    ∀ js, (buildSnapshot demoCompanies demoSource).lookup c = some js →
    ∀ j ∈ js, j.job_id ≠ "g1" := by
  intro c hc js hjs j hj
  by_cases h1 : c = "Acme"
  · subst h1
    have hjs2 : js = [acmeJob] := by
      have : (buildSnapshot demoCompanies demoSource).lookup "Acme" = some [acmeJob] := by
        decide
      rw [this] at hjs
      exact (Option.some.injEq _ _ ▸ hjs).symm
    subst hjs2
    rw [List.mem_singleton] at hj
    subst hj
    decide
  · have hnone : (buildSnapshot demoCompanies demoSource).lookup c = none := by
      have hb1 : (c == "Acme") = false := by simp [h1]
      have hb2 : (c == "Globex") = false := by simp [hc]
      simp only [buildSnapshot, demoCompanies, demoSource, List.map_cons, List.map_nil,
        List.lookup_cons, hb1, hb2]
      rfl
    rw [hnone] at hjs
    exact Option.noConfusion hjs

/-- Witness for C10: posting "g1" (Globex) is scraped in a cycle whose only
subscriber Ann follows Acme, so it is not stored; a second cycle whose only
subscriber Cid follows Globex then picks it up as new and notifies Cid. -/
theorem unfollowed_employer_posting_deferred_witness :
    "Globex" ∈ demoCompanies.map Prod.fst ∧
    (∀ u ∈ [ann], "Globex" ∉ u.companies) ∧
    existsId [] "g1" = false ∧
    (∀ c, c ≠ "Globex" →
      ∀ js, (buildSnapshot demoCompanies demoSource).lookup c = some js →
      ∀ j ∈ js, j.job_id ≠ "g1") ∧
    ([ann] : List User) ≠ [] ∧
    cid.companies = ["Globex"] ∧
    (∀ x, noFail x = false) ∧
    (∀ x, noFail x = false) ∧
    (buildSnapshot demoCompanies demoSource).lookup "Globex" = some [globexJob] ∧
    globexJob ∈ [globexJob] ∧
    globexJob.job_id = "g1" ∧
    (([globexJob] : List Job).map Job.job_id).Nodup ∧
    (existsId (scrape_jobs noFail noFail noFail demoCompanies demoSource [ann] []).store
        "g1" = false ∧
      "Globex" ∈ (scrape_jobs noFail noFail noFail demoCompanies demoSource [ann] []).scraped ∧
      (∃ l, (scrape_jobs noFail noFail noFail demoCompanies demoSource [cid]
              (scrape_jobs noFail noFail noFail demoCompanies demoSource [ann] []).store).userNewJobs
            = [(cid, l)] ∧ globexJob ∈ l ∧
          (scrape_jobs noFail noFail noFail demoCompanies demoSource [cid]
              (scrape_jobs noFail noFail noFail demoCompanies demoSource [ann] []).store).emails
            = [send_email_notification noFail cid.email cid.name l])) :=
  ⟨by decide, by decide, by decide, demoHonly, by decide, by decide, fun _ => rfl, fun _ => rfl,
    by decide, by decide, by decide, by decide,
    unfollowed_employer_posting_deferred noFail noFail noFail demoCompanies demoSource
      [ann] [] "Globex" "g1" (by decide) (by decide) (by decide) demoHonly (by decide)
      cid (by decide) noFail noFail noFail (fun _ => rfl) (fun _ => rfl)
      [globexJob] (by decide) globexJob (by decide) (by decide) (by decide)⟩
